import Mathlib

/-!
Shallow embedding of `src/key-store.js` (orbit-db-nextgen key store).

The file models, faithfully to the JavaScript source:
  * `verifySignature`, `signMessage`, the module-level verification cache and
    `verifyMessage` (lines 10-75 of `src/key-store.js`);
  * the `KeyStore` instance operations `hasKey`, `addKey`, `createKey`,
    `getKey`, `getPublic` (lines 86-178), parametrised over an abstract
    storage interface because the concrete storage classes
    (`storage/composed.js`, `storage/level.js`, `storage/lru.js`) are not
    part of the sources; where their behaviour is needed it is modelled
    from the specification (see the `Modelled from the spec:` doc comments).

Conventions:
  * JavaScript byte buffers are `List Nat` with every element `< 256`.
  * A JavaScript value that may be either a `Buffer` or a string (the
    `data` arguments) is the inductive `Data`.
  * A thrown JavaScript exception is `Except.error (e : JsError)`;
    `JsError.error` models `throw new Error(msg)` and `JsError.typeError`
    models a `TypeError` raised by the runtime or by `Buffer.compare`.
  * JavaScript truthiness on strings: the empty string is falsy, so the
    `if (!x) throw` guards fire exactly on `""` (and on `null`/`undefined`,
    which we model as `""` for string arguments and as `Option.none` for
    object arguments).
  * The external `safe-buffer` dependency's UTF-8 conversions
    (`Buffer.from(string)` and `buf.toString()`) are an abstract
    `BufferApi`; hex encoding/decoding (`buf.toString('hex')`,
    `Buffer.from(s, 'hex')`) is modelled concretely below, including
    Node's stop-at-first-invalid-pair behaviour.
  * The external `@libp2p/crypto` secp256k1 primitives are the abstract
    structures `PubKeyObj` / `KeyHandle` / `CryptoApi`: a call that may
    throw returns an `Option` (with `none` for a throw caught by the
    source's `try`/`catch`).
-/

namespace KeyStoreModel

/-- Raw bytes of a JavaScript `Buffer`: naturals, each expected `< 256`. -/
abbrev Bytes := List Nat

/-- Every element of the byte list is an actual byte value. -/
def bytesValid (bs : Bytes) : Prop := ∀ b ∈ bs, b < 256

instance : DecidablePred bytesValid := fun bs =>
  inferInstanceAs (Decidable (∀ b ∈ bs, b < 256))

/-- A JavaScript value that is either a `Buffer` or a string (the shape of
the `data` arguments of `signMessage` / `verifySignature` / `verifyMessage`). -/
inductive Data where
  | buf (bs : Bytes)
  | str (s : String)
deriving DecidableEq, Repr

/-- A thrown JavaScript exception: `Error(msg)` or a runtime `TypeError`. -/
inductive JsError where
  | error (msg : String)
  | typeError (msg : String)
deriving DecidableEq, Repr

/-- JavaScript truthiness of a `data` argument: a `Buffer` is always truthy
(even when empty); a string is truthy iff non-empty. -/
def Data.truthy : Data → Bool
  | .buf _ => true
  | .str s => s ≠ ""

/-- Is the value a `Buffer`? (models `Buffer.isBuffer(data)`). -/
def Data.isBuf : Data → Bool
  | .buf _ => true
  | .str _ => false

/-- The external `safe-buffer` UTF-8 conversions, kept abstract:
`fromString` models `Buffer.from(s)` (UTF-8 encode) and `decode` models
`buf.toString()` (UTF-8 decode). -/
structure BufferApi where
  fromString : String → Bytes
  decode : Bytes → String

/-- `Buffer.from(data)` when `data` may already be a buffer:
the source's `if (!Buffer.isBuffer(data)) data = Buffer.from(data)`. -/
def dataToBytes (B : BufferApi) : Data → Bytes
  | .buf bs => bs
  | .str s => B.fromString s

/-- `data.toString()`: identity on strings, UTF-8 decode on buffers. -/
def dataToStr (B : BufferApi) : Data → String
  | .buf bs => B.decode bs
  | .str s => s

/-! ### Hex encoding (`buf.toString('hex')` / `Buffer.from(s, 'hex')`) -/

/-- Lowercase hex digit for `n < 16`. -/
def hexDigitChar (n : Nat) : Char :=
  if n < 10 then Char.ofNat (48 + n) else Char.ofNat (87 + n)

/-- The two lowercase hex digits of one byte. -/
def hexEncodeByte (b : Nat) : List Char :=
  [hexDigitChar (b / 16), hexDigitChar (b % 16)]

/-- `buf.toString('hex')`: lowercase hex of the whole byte list. -/
def hexEncode (bs : Bytes) : String :=
  ⟨(bs.map hexEncodeByte).flatten⟩

/-- Value of one hex digit character; accepts `0-9`, `a-f`, `A-F` like Node. -/
def hexCharVal (c : Char) : Option Nat :=
  if 48 ≤ c.toNat ∧ c.toNat ≤ 57 then some (c.toNat - 48)
  else if 97 ≤ c.toNat ∧ c.toNat ≤ 102 then some (c.toNat - 87)
  else if 65 ≤ c.toNat ∧ c.toNat ≤ 70 then some (c.toNat - 55)
  else none

/-- `Buffer.from(s, 'hex')` on a character list: decode two characters per
byte, stopping (without error) at the first invalid pair or at a trailing
lone character, exactly like Node's hex decoder. -/
def hexDecodeAux : List Char → Bytes
  | c1 :: c2 :: rest =>
    match hexCharVal c1, hexCharVal c2 with
    | some h, some l => (16 * h + l) :: hexDecodeAux rest
    | _, _ => []
  | _ => []

/-- `Buffer.from(s, 'hex')`. Never throws. -/
def hexDecode (s : String) : Bytes := hexDecodeAux s.data

/-! ### The external secp256k1 primitives (`@libp2p/crypto`) -/

/-- An unmarshalled secp256k1 public key: `verify(msg, sig)` returns a
boolean, or `none` when the underlying call throws (e.g. wrong signature
length). -/
structure PubKeyObj where
  verify : Bytes → Bytes → Option Bool

/-- An unmarshalled secp256k1 private-key handle (the object returned by
`crypto.keys.unmarshalPrivateKey` / `unmarshalSecp256k1PrivateKey`):
`sign data` are the raw signature bytes, `pubBytes` is
`keys.public.marshal()`, `marshal` is `keys.marshal()`. -/
structure KeyHandle where
  sign : Bytes → Bytes
  pubBytes : Bytes
  marshal : Bytes

/-- The slice of the `@libp2p/crypto` API the key store uses.
`unmarshalPubKey` returns `none` when the library call throws on invalid
public-key bytes (caught by the source's `try`). `unmarshalPrivKey` models
`unmarshalSecp256k1PrivateKey` applied to stored private-key bytes. -/
structure CryptoApi where
  unmarshalPubKey : Bytes → Option PubKeyObj
  unmarshalPrivKey : Bytes → KeyHandle

/-! ### `verifySignature` and `signMessage` (key-store.js lines 10-52) -/

/-- `verifySignature(signature, publicKey, data)`, lines 10-36.
Guards throw on falsy arguments; then the public key is parsed from hex and
the signature verified inside a `try` whose `catch` leaves the result
`false`; the function returns a boolean otherwise. -/
def verifySignature (B : BufferApi) (c : CryptoApi)
    (signature publicKey : String) (data : Data) : Except JsError Bool :=
  if signature = "" then .error (.error "No signature given")
  else if publicKey = "" then .error (.error "Given publicKey was undefined")
  else if ¬ data.truthy then .error (.error "Given input data was undefined")
  else
    let dataB := dataToBytes B data
    match c.unmarshalPubKey (hexDecode publicKey) with
    | none => .ok false
    | some pubKey =>
      match pubKey.verify dataB (hexDecode signature) with
      | none => .ok false
      | some b => .ok b

/-- `signMessage(key, data)`, lines 38-52: guards, then the key signs the
byte form of `data` and the signature is returned as lowercase hex. -/
def signMessage (B : BufferApi) (key : Option KeyHandle) (data : Data) :
    Except JsError String :=
  match key with
  | none => .error (.error "No signing key given")
  | some k =>
    if ¬ data.truthy then .error (.error "Given input data was undefined")
    else .ok (hexEncode (k.sign (dataToBytes B data)))

/-! ### The verification cache (key-store.js lines 54-75) -/

/-- One entry of the module-level verification cache: the value stored under
a signature is `{ publicKey, data }` with the *original* (unnormalised)
`data` argument. -/
structure CacheEntry where
  publicKey : String
  data : Data
deriving DecidableEq, Repr

/-- First-match association-list lookup (the key → value view shared by the
cache and storage models). -/
def assocLookup {α : Type} : List (String × α) → String → Option α
  | [], _ => none
  | (k, v) :: rest, key => if k = key then some v else assocLookup rest key

/-- Modelled from the spec: the bounded LRU container of `storage/lru.js`
(not under the sources) — "Fixed-capacity mapping from identifier to value
... On `put` beyond capacity, evicts the least-recently-used entry. `get`
promotes the entry's recency." Entries are kept most-recently-used first. -/
structure LRUCache where
  entries : List (String × CacheEntry)
  size : Nat
deriving DecidableEq, Repr

/-- Modelled from the spec: LRU `get` — returns the value under the key and
promotes the entry to most-recently-used; a miss leaves the cache unchanged. -/
def lruGet (c : LRUCache) (key : String) : Option CacheEntry × LRUCache :=
  match assocLookup c.entries key with
  | none => (none, c)
  | some v => (some v, ⟨(key, v) :: c.entries.filter (fun p => p.1 ≠ key), c.size⟩)

/-- Modelled from the spec: LRU `put` — inserts/overwrites the key as
most-recently-used and evicts beyond-capacity entries from the
least-recently-used end. -/
def lruPut (c : LRUCache) (key : String) (v : CacheEntry) : LRUCache :=
  ⟨((key, v) :: c.entries.filter (fun p => p.1 ≠ key)).take c.size, c.size⟩

/-- The verification cache the module creates at load time:
`await LRUStorage({ size: 1000 })`, initially empty. -/
def initialVerifiedCache : LRUCache := ⟨[], 1000⟩

/-- The `compare` closure inside `verifyMessage` (lines 68-71):
`Buffer.isBuffer(data) ? Buffer.compare(cached, data) === 0
                       : cached.toString() === data.toString()`.
When the supplied `data` is a buffer but the cached value is a string,
`Buffer.compare` throws a `TypeError` (its arguments must be `Buffer` or
`Uint8Array`). -/
def compareCached (B : BufferApi) (cached data : Data) : Except JsError Bool :=
  match data with
  | .buf bs =>
    match cached with
    | .buf cs => .ok (cs = bs)
    | .str _ =>
      .error (.typeError "The buf1 argument must be an instance of Buffer or Uint8Array")
  | .str t => .ok (dataToStr B cached = t)

/-- `verifyMessage(signature, publicKey, data)`, lines 56-75, as an explicit
state transformer on the verification cache. On a miss it runs
`verifySignature` and caches `{ publicKey, data }` only on `true`; on a hit
it compares `cached.publicKey === publicKey && compare(cached.data, data)`
(short-circuit: `compare` runs only when the public keys match). -/
def verifyMessage (B : BufferApi) (c : CryptoApi) (cache : LRUCache)
    (signature publicKey : String) (data : Data) :
    Except JsError Bool × LRUCache :=
  match lruGet cache signature with
  | (none, c1) =>
    match verifySignature B c signature publicKey data with
    | .error e => (.error e, c1)
    | .ok verified =>
      if verified then (.ok true, lruPut c1 signature ⟨publicKey, data⟩)
      else (.ok false, c1)
  | (some cached, c1) =>
    if cached.publicKey = publicKey then
      match compareCached B cached.data data with
      | .error e => (.error e, c1)
      | .ok m => (.ok m, c1)
    else (.ok false, c1)

/-- The verification-cache states reachable from module load: the cache
starts empty and evolves only through `verifyMessage` calls (against the
one process-wide crypto library and buffer runtime). -/
inductive ReachableCache (B : BufferApi) (c : CryptoApi) : LRUCache → Prop where
  | init (size : Nat) : ReachableCache B c ⟨[], size⟩
  | step {s : LRUCache} (signature publicKey : String) (data : Data) :
      ReachableCache B c s →
      ReachableCache B c (verifyMessage B c s signature publicKey data).2

/-! ### The KeyStore instance operations (key-store.js lines 86-178)

The instance closes over a `storage` object; we pass it explicitly as a
state value `s : σ` together with its method table `S : StorageIface σ`.
Each operation returns the JavaScript outcome (`Except` for a possible
throw) paired with the storage state after the call. -/

/-- The async key-value interface the key store requires of its `storage`
argument (`get`/`put`; `clear`/`close` are not needed by the claims). A
method may throw (`Except.error`) and may update internal state (cache
population), hence the returned state. -/
structure StorageIface (σ : Type) where
  get : σ → String → Except JsError (Option Bytes) × σ
  put : σ → String → Bytes → Except JsError Unit × σ

/-- The `{ publicKey, privateKey }` record `createKey` builds (lines
129-132). -/
structure KeyRecord where
  publicKey : Bytes
  privateKey : Bytes

/-- `hasKey(id)`, lines 97-112: guard on falsy id, then
`storage.get('private_' + id)` inside a `try` whose `catch` leaves the
result `false`; on success the result is `storedKey !== undefined &&
storedKey !== null` (absence is `Option.none` in the model). -/
def hasKey {σ : Type} (S : StorageIface σ) (s : σ) (id : String) :
    Except JsError Bool × σ :=
  if id = "" then (.error (.error "id needed to check a key"), s)
  else
    match S.get s ("private_" ++ id) with
    | (.ok storedKey, s1) => (.ok storedKey.isSome, s1)
    | (.error _, s1) => (.ok false, s1)

/-- `addKey(id, key)`, lines 114-117: stores only the private-key bytes
under `'private_' + id` (the `public_` put is commented out in the source). -/
def addKey {σ : Type} (S : StorageIface σ) (s : σ) (id : String)
    (key : KeyRecord) : Except JsError Unit × σ :=
  S.put s ("private_" ++ id) key.privateKey

/-- `createKey(id)`, lines 119-137: guard on falsy id; the fresh pair
generated by the crypto library is the parameter `keys` (key generation is
external and random); the `{ publicKey, privateKey }` record is built from
`keys.public.marshal()` and `keys.marshal()`, stored via `addKey`, and the
handle `keys` is returned. -/
def createKey {σ : Type} (S : StorageIface σ) (s : σ) (id : String)
    (keys : KeyHandle) : Except JsError KeyHandle × σ :=
  if id = "" then (.error (.error "id needed to create a key"), s)
  else
    let pubKey := keys.pubBytes
    let key : KeyRecord := ⟨pubKey, keys.marshal⟩
    match addKey S s id key with
    | (.ok _, s1) => (.ok keys, s1)
    | (.error e, s1) => (.error e, s1)

/-- `getKey(id)`, lines 139-156: guard on falsy id; `storage.get` inside a
`try` that ignores errors (leaving `storedKey` undefined); absent
`storedKey` returns `undefined`; otherwise the stored private-key bytes are
unmarshalled into a key handle. -/
def getKey {σ : Type} (S : StorageIface σ) (c : CryptoApi) (s : σ)
    (id : String) : Except JsError (Option KeyHandle) × σ :=
  if id = "" then (.error (.error "id needed to get a key"), s)
  else
    match S.get s ("private_" ++ id) with
    | (.ok (some storedKey), s1) => (.ok (some (c.unmarshalPrivKey storedKey)), s1)
    | (.ok none, s1) => (.ok none, s1)
    | (.error _, s1) => (.ok none, s1)

/-- The result of `getPublic`: a hex string or a raw buffer. -/
inductive PubResult where
  | hexStr (s : String)
  | bufRes (bs : Bytes)
deriving DecidableEq, Repr

/-- `getPublic(keys, options)`, lines 158-167: `options.format || 'hex'`
(so an absent *or empty* format falls back to `'hex'`), then the closed
format check, then `keys.public.marshal()` — which on a `null`/`undefined`
`keys` raises a runtime `TypeError`, reached only after the format check
passes. -/
def getPublic (keys : Option KeyHandle) (format : Option String) :
    Except JsError PubResult :=
  let fmt := match format with
    | none => "hex"
    | some f => if f = "" then "hex" else f
  if fmt ≠ "hex" ∧ fmt ≠ "buffer" then
    .error (.error "Supported formats are `hex` and `buffer`")
  else
    match keys with
    | none => .error (.typeError "Cannot read properties of null")
    | some k =>
      if fmt = "buffer" then .ok (.bufRes k.pubBytes)
      else .ok (.hexStr (hexEncode k.pubBytes))

/-! ### Composed storage, modelled from the spec

`storage/composed.js`, `storage/level.js` and `storage/lru.js` are not
under the sources; claims about persistence (C5) are settled against this
model of spec §4.2/§4.3: a bounded LRU cache tier over a durable
persistent tier, read-through with cache population, write-through
(persistent tier first, then cache). Neither tier ever throws in this
model (`NotFound` is the absent result, per §4.2 "if not found in either
tier, returns absent"). -/

/-- Modelled from the spec: bounded-LRU insert used by the storage cache
tier (most-recently-used first, truncate to capacity). -/
def lruInsert {α : Type} (es : List (String × α)) (cap : Nat)
    (key : String) (v : α) : List (String × α) :=
  ((key, v) :: es.filter (fun p => p.1 ≠ key)).take cap

/-- Modelled from the spec: the state of Composed Storage — a cache tier
(bounded, recency-ordered) over a persistent tier (a durable map). -/
structure ComposedState where
  cache : List (String × Bytes)
  cacheSize : Nat
  level : List (String × Bytes)

/-- Modelled from the spec (§4.2): `get` checks the cache tier first (a hit
promotes recency); on a miss it reads the persistent tier and populates the
cache with a found value; absent in both tiers returns absent. -/
def composedGet (s : ComposedState) (key : String) :
    Except JsError (Option Bytes) × ComposedState :=
  match assocLookup s.cache key with
  | some v =>
    (.ok (some v),
     { s with cache := (key, v) :: s.cache.filter (fun p => p.1 ≠ key) })
  | none =>
    match assocLookup s.level key with
    | some v => (.ok (some v), { s with cache := lruInsert s.cache s.cacheSize key v })
    | none => (.ok none, s)

/-- Modelled from the spec (§4.2): `put` writes the persistent tier first,
then updates the cache tier; both overwrite any prior value for the key. -/
def composedPut (s : ComposedState) (key : String) (v : Bytes) :
    Except JsError Unit × ComposedState :=
  (.ok (),
   { s with
     level := (key, v) :: s.level.filter (fun p => p.1 ≠ key),
     cache := lruInsert s.cache s.cacheSize key v })

/-- Modelled from the spec: the Composed Storage method table. -/
def composedStorage : StorageIface ComposedState :=
  ⟨composedGet, composedPut⟩

/-! ### The spec's cache-hit data comparison, stated independently

Spec §4.4: on a hit the cached data must equal the supplied data
"byte-for-byte if binary, string form otherwise". This predicate follows
the spec's words (not the code) and is compared against `verifyMessage`'s
behaviour in the cache-hit theorem. -/

/-- The spec's notion of the cached data matching the supplied data:
byte-for-byte when the supplied data is binary, string form otherwise. -/
def dataMatchSpec (B : BufferApi) (cached supplied : Data) : Prop :=
  match supplied with
  | .buf bs => cached = .buf bs
  | .str t => dataToStr B cached = t

/-! ### Concrete fixtures (used to evaluate the model at specific inputs) -/

/-- A concrete byte/string codec standing in for the abstract `BufferApi`
(codepoint-per-byte; only applied to ASCII fixtures below). -/
def B0 : BufferApi :=
  ⟨fun s => s.data.map Char.toNat, fun bs => ⟨bs.map Char.ofNat⟩⟩

/-- A concrete public-key object whose `verify` accepts exactly the
signature equal to the message bytes. -/
def pubObjEq : PubKeyObj := ⟨fun msg sig => some (decide (msg = sig))⟩

/-- A concrete key handle: identity `sign`, public bytes `[2, 231]`
(hex `02e7`), marshalled private bytes `[1, 2, 3]`. -/
def trivialKey : KeyHandle := ⟨fun d => d, [2, 231], [1, 2, 3]⟩

/-- A concrete crypto API under which `pubObjEq` parses from any bytes and
private bytes unmarshal to `trivialKey`. -/
def cOk : CryptoApi := ⟨fun _ => some pubObjEq, fun _ => trivialKey⟩

/-- A concrete crypto API whose public-key parsing always throws. -/
def cNone : CryptoApi := ⟨fun _ => none, fun _ => trivialKey⟩

/-- A concrete storage whose `get` always reports absence. -/
def emptyStorage : StorageIface Unit :=
  ⟨fun s _ => (.ok none, s), fun s _ _ => (.ok (), s)⟩

/-- A concrete storage whose `get` always throws (an ENOENT-style fault). -/
def failingStorage : StorageIface Unit :=
  ⟨fun s _ => (.error (.error "ENOENT"), s), fun s _ _ => (.ok (), s)⟩

/-! ## Helper lemmas -/

theorem assocLookup_mem {α : Type} {es : List (String × α)} {k : String}
    {v : α} (h : assocLookup es k = some v) : (k, v) ∈ es := by
  induction es with
  | nil => simp [assocLookup] at h
  | cons p rest ih =>
    obtain ⟨a, b⟩ := p
    by_cases hk : a = k
    · subst hk
      simp [assocLookup] at h
      subst h
      exact List.mem_cons_self _ _
    · simp [assocLookup, hk] at h
      exact List.mem_cons_of_mem _ (ih h)

theorem assocLookup_filter_ne {α : Type} (es : List (String × α))
    (k k' : String) (hne : k' ≠ k) :
    assocLookup (es.filter (fun p => p.1 ≠ k)) k' = assocLookup es k' := by
  induction es with
  | nil => rfl
  | cons p rest ih =>
    obtain ⟨a, b⟩ := p
    by_cases hk : a = k
    · subst hk
      have hne' : a ≠ k' := fun h => hne (h ▸ rfl)
      have hfilter : ((a, b) :: rest).filter (fun p => p.1 ≠ a)
          = rest.filter (fun p => p.1 ≠ a) := by
        simp [List.filter_cons]
      rw [hfilter, ih]
      simp [assocLookup, hne']
    · have hfilter : ((a, b) :: rest).filter (fun p => p.1 ≠ k)
          = (a, b) :: rest.filter (fun p => p.1 ≠ k) := by
        simp [List.filter_cons, hk]
      rw [hfilter]
      by_cases hk' : a = k'
      · subst hk'
        simp [assocLookup]
      · simp only [assocLookup, if_neg hk']
        exact ih

theorem lruGet_fst (c : LRUCache) (k : String) :
    (lruGet c k).1 = assocLookup c.entries k := by
  unfold lruGet
  cases h : assocLookup c.entries k <;> simp [h]

theorem lruGet_miss {c : LRUCache} {k : String}
    (h : assocLookup c.entries k = none) : lruGet c k = (none, c) := by
  unfold lruGet
  rw [h]

theorem lruGet_hit {c : LRUCache} {k : String} {v : CacheEntry}
    (h : assocLookup c.entries k = some v) :
    lruGet c k
      = (some v, ⟨(k, v) :: c.entries.filter (fun p => p.1 ≠ k), c.size⟩) := by
  unfold lruGet
  rw [h]

theorem assocLookup_promote {es : List (String × α)} {k : String} {v : α}
    (h : assocLookup es k = some v) (k' : String) :
    assocLookup ((k, v) :: es.filter (fun p => p.1 ≠ k)) k'
      = assocLookup es k' := by
  by_cases hk : k = k'
  · subst hk
    simp [assocLookup, h]
  · simp only [assocLookup, if_neg hk]
    exact assocLookup_filter_ne es k k' (fun hh => hk hh.symm)

theorem hexCharVal_hexDigitChar : ∀ n < 16, hexCharVal (hexDigitChar n) = some n := by
  decide

theorem hexDecodeAux_encode :
    ∀ bs : Bytes, bytesValid bs →
      hexDecodeAux ((bs.map hexEncodeByte).flatten) = bs := by
  intro bs h
  induction bs with
  | nil => rfl
  | cons b rest ih =>
    have hb : b < 256 := h b (List.mem_cons_self _ _)
    have h1 : hexCharVal (hexDigitChar (b / 16)) = some (b / 16) :=
      hexCharVal_hexDigitChar _ (by omega)
    have h2 : hexCharVal (hexDigitChar (b % 16)) = some (b % 16) :=
      hexCharVal_hexDigitChar _ (Nat.mod_lt _ (by omega))
    have hrest : bytesValid rest := fun x hx => h x (List.mem_cons_of_mem _ hx)
    simp only [List.map_cons, List.flatten_cons, hexEncodeByte,
      List.cons_append, List.nil_append]
    simp [hexDecodeAux, h1, h2, Nat.div_add_mod, ih hrest]

theorem hexDecode_hexEncode (bs : Bytes) (h : bytesValid bs) :
    hexDecode (hexEncode bs) = bs :=
  hexDecodeAux_encode bs h

theorem hexEncode_ne_empty {bs : Bytes} (h : bs ≠ []) : hexEncode bs ≠ "" := by
  cases bs with
  | nil => exact absurd rfl h
  | cons b rest =>
    intro hcon
    have hdata := congrArg String.data hcon
    simp [hexEncode, hexEncodeByte] at hdata

/-! ## Claim C7 -/

/-- C7: for an empty/absent id (JavaScript-falsy, modelled as `""`), each of
`createKey`, `getKey` and `hasKey` fails synchronously with its
InvalidArgument error and neither reads nor modifies storage: the outcome is
the guard error paired with the unchanged state, for every storage interface
and state. -/
theorem emptyId_guards_reject :
    ∀ (σ : Type) (S : StorageIface σ) (s : σ) (keys : KeyHandle)
      (c : CryptoApi),
      createKey S s "" keys = (.error (.error "id needed to create a key"), s)
      ∧ getKey S c s "" = (.error (.error "id needed to get a key"), s)
      ∧ hasKey S s "" = (.error (.error "id needed to check a key"), s) := by
  intro σ S s keys c
  refine ⟨rfl, rfl, rfl⟩

/-! ## Claim C6 -/

/-- C6: for every non-empty id, when storage reports absence (`ok none`) or
throws (a not-found / any other failure), `getKey` returns `ok none` — it
never throws; and `hasKey` returns `ok true` exactly when storage holds a
(non-null) record under `"private_" + id`, with a storage error collapsed
to `ok false`. -/
theorem getKey_absent_hasKey_storage_errors :
    ∀ (σ : Type) (S : StorageIface σ) (c : CryptoApi) (s : σ) (id : String),
      id ≠ "" →
      (((S.get s ("private_" ++ id)).1 = .ok none ∨
          ∃ e, (S.get s ("private_" ++ id)).1 = .error e) →
        (getKey S c s id).1 = .ok none)
      ∧ (hasKey S s id).1 = .ok (match (S.get s ("private_" ++ id)).1 with
          | .ok v => v.isSome
          | .error _ => false) := by
  intro σ S c s id hid
  constructor
  · intro habs
    unfold getKey
    rw [if_neg hid]
    rcases hp : S.get s ("private_" ++ id) with ⟨r, s1⟩
    rw [hp] at habs
    rcases habs with h | ⟨e, h⟩
    · simp only at h
      subst h
      rfl
    · simp only at h
      subst h
      rfl
  · unfold hasKey
    rw [if_neg hid]
    rcases hp : S.get s ("private_" ++ id) with ⟨r, s1⟩
    cases r <;> rfl

/-- Witness for C6 at concrete inputs: an always-absent storage makes
`getKey` return `ok none`, and an always-throwing storage makes `hasKey`
return `ok false`. -/
theorem getKey_absent_hasKey_storage_errors_witness :
    (getKey emptyStorage cOk () "key1").1 = .ok none
    ∧ (hasKey failingStorage () "key1").1 = .ok false := by
  have h1 := getKey_absent_hasKey_storage_errors Unit emptyStorage cOk ()
    "key1" (by decide)
  have h2 := getKey_absent_hasKey_storage_errors Unit failingStorage cOk ()
    "key1" (by decide)
  exact ⟨h1.1 (Or.inl rfl), h2.2⟩

/-! ## Claim C8 -/

/-- Counterexample to C8 as stated: the format value `""` is neither
`'hex'` nor `'buffer'`, yet the call does not fail with InvalidArgument —
`options.format || 'hex'` treats the empty string as absent and falls back
to hex output. -/
theorem getPublic_empty_format_no_throw :
    getPublic (some trivialKey) (some "") = .ok (.hexStr "02e7")
    ∧ ("" : String) ≠ "hex" ∧ ("" : String) ≠ "buffer" := by
  refine ⟨rfl, by decide, by decide⟩

/-- C8 (amended): `getPublic` with format `'hex'` returns exactly the hex
encoding of the bytes that format `'buffer'` returns, and every *non-empty*
format value other than `'hex'` and `'buffer'` fails with the
InvalidArgument error (an empty format string is treated as absent and
defaults to `'hex'`). -/
theorem getPublic_hex_buffer_agree :
    ∀ key : KeyHandle,
      (∃ bs, getPublic (some key) (some "buffer") = .ok (.bufRes bs)
        ∧ getPublic (some key) (some "hex") = .ok (.hexStr (hexEncode bs)))
      ∧ ∀ fmt : String, fmt ≠ "" → fmt ≠ "hex" → fmt ≠ "buffer" →
          ∀ keys : Option KeyHandle,
            getPublic keys (some fmt)
              = .error (.error "Supported formats are `hex` and `buffer`") := by
  intro key
  constructor
  · exact ⟨key.pubBytes, rfl, rfl⟩
  · intro fmt h0 h1 h2 keys
    simp [getPublic, h0, h1, h2]

/-- Witness for C8 (amended) at `trivialKey` and the format `"foo"`. -/
theorem getPublic_hex_buffer_agree_witness :
    (∃ bs, getPublic (some trivialKey) (some "buffer") = .ok (.bufRes bs)
      ∧ getPublic (some trivialKey) (some "hex")
          = .ok (.hexStr (hexEncode bs)))
    ∧ getPublic (some trivialKey) (some "foo")
        = .error (.error "Supported formats are `hex` and `buffer`") := by
  have h := getPublic_hex_buffer_agree trivialKey
  exact ⟨h.1, h.2 "foo" (by decide) (by decide) (by decide) (some trivialKey)⟩

/-! ## Claim C10 -/

/-- Counterexample to C10 as stated: with an absent key pair and the format
value `""` (outside `{hex, buffer}`), the call does *not* throw the
unsupported-format InvalidArgument error — the empty format defaults to
`'hex'` and the call instead fails dereferencing the missing key pair. -/
theorem getPublic_null_empty_format_typeError :
    getPublic none (some "") = .error (.typeError "Cannot read properties of null")
    ∧ JsError.typeError "Cannot read properties of null"
        ≠ .error "Supported formats are `hex` and `buffer`" := by
  refine ⟨rfl, by decide⟩

/-- C10 (amended): for an absent key pair and every *non-empty* format
value outside `{hex, buffer}`, `getPublic` throws the unsupported-format
InvalidArgument error — the format is validated before the key pair is
dereferenced. (With an empty or absent format the call instead fails by
dereferencing the missing key pair, since the format defaults to `'hex'`.) -/
theorem getPublic_null_keys_format_checked_first :
    ∀ fmt : String, fmt ≠ "" → fmt ≠ "hex" → fmt ≠ "buffer" →
      getPublic none (some fmt)
        = .error (.error "Supported formats are `hex` and `buffer`") := by
  intro fmt h0 h1 h2
  simp [getPublic, h0, h1, h2]

/-- Witness for C10 (amended) at the format `"foo"`. -/
theorem getPublic_null_keys_format_checked_first_witness :
    getPublic none (some "foo")
      = .error (.error "Supported formats are `hex` and `buffer`") :=
  getPublic_null_keys_format_checked_first "foo" (by decide) (by decide)
    (by decide)

/-- Shared lemma: `verifySignature` with truthy arguments always returns a
boolean (the `try`/`catch` collapses parse and verification throws to
`false`). -/
theorem verifySignature_total (B : BufferApi) (c : CryptoApi)
    (sig pub : String) (data : Data) (h1 : sig ≠ "") (h2 : pub ≠ "")
    (h3 : data.truthy = true) :
    ∃ b, verifySignature B c sig pub data = .ok b := by
  unfold verifySignature
  rw [if_neg h1, if_neg h2, if_neg (by simp [h3])]
  cases hm : c.unmarshalPubKey (hexDecode pub) with
  | none => exact ⟨false, by simp [hm]⟩
  | some k =>
    cases hv : k.verify (dataToBytes B data) (hexDecode sig) with
    | none => exact ⟨false, by simp [hm, hv]⟩
    | some b => exact ⟨b, by simp [hm, hv]⟩

/-! ## Claim C3 -/

/-- Counterexample to C3 as stated: after `"x"` (a string) verifies
successfully under signature `"78"` and is cached, calling `verifyMessage`
with the same signature and public key but *binary* data reaches
`Buffer.compare(cached, data)` with a cached string, which throws a
`TypeError` instead of returning false — even though all three arguments
are non-null and truthy. -/
theorem verifyMessage_mixed_hit_throws :
    (verifyMessage B0 cOk
        (verifyMessage B0 cOk ⟨[], 1000⟩ "78" "pp" (.str "x")).2
        "78" "pp" (.buf [1])).1
      = .error (.typeError
          "The buf1 argument must be an instance of Buffer or Uint8Array")
    ∧ ("78" : String) ≠ "" ∧ ("pp" : String) ≠ ""
    ∧ (Data.buf [1]).truthy = true := by
  refine ⟨rfl, by decide, by decide, rfl⟩

/-- C3 (amended): for truthy signature, publicKey and data,
`verifySignature` returns a boolean and never throws — malformed input and
cryptographic rejection collapse to `false` — and `verifyMessage` likewise,
*except* on a cache hit whose entry has the matching publicKey but holds
string data while the supplied data is binary (there the byte comparison
throws a `TypeError`). -/
theorem verify_never_throws :
    (∀ (B : BufferApi) (c : CryptoApi) (sig pub : String) (data : Data),
      sig ≠ "" → pub ≠ "" → data.truthy = true →
      ∃ b, verifySignature B c sig pub data = .ok b)
    ∧ (∀ (B : BufferApi) (c : CryptoApi) (cache : LRUCache) (sig pub : String)
        (data : Data),
      sig ≠ "" → pub ≠ "" → data.truthy = true →
      (∀ e, assocLookup cache.entries sig = some e → e.publicKey = pub →
        e.data.isBuf = false → data.isBuf = false) →
      ∃ b, (verifyMessage B c cache sig pub data).1 = .ok b) := by
  constructor
  · exact fun B c sig pub data h1 h2 h3 =>
      verifySignature_total B c sig pub data h1 h2 h3
  · intro B c cache sig pub data h1 h2 h3 hmix
    cases hl : assocLookup cache.entries sig with
    | none =>
      obtain ⟨b, hb⟩ := verifySignature_total B c sig pub data h1 h2 h3
      unfold verifyMessage
      rw [lruGet_miss hl]
      simp only [hb]
      cases b
      · exact ⟨false, rfl⟩
      · exact ⟨true, rfl⟩
    | some e =>
      unfold verifyMessage
      rw [lruGet_hit hl]
      dsimp only
      by_cases hpk : e.publicKey = pub
      · rw [if_pos hpk]
        cases hc : compareCached B e.data data with
        | ok m => exact ⟨m, by simp [hc]⟩
        | error er =>
          exfalso
          cases data with
          | str t => simp [compareCached] at hc
          | buf bs =>
            cases hed : e.data with
            | buf cs => rw [hed] at hc; simp [compareCached] at hc
            | str s =>
              have := hmix e hl hpk (by rw [hed]; rfl)
              simp [Data.isBuf] at this
      · rw [if_neg hpk]
        exact ⟨false, rfl⟩

/-- Witness for C3 (amended) at concrete truthy inputs and the empty cache. -/
theorem verify_never_throws_witness :
    (∃ b, verifySignature B0 cNone "aa" "bb" (.str "q") = .ok b)
    ∧ ∃ b, (verifyMessage B0 cNone ⟨[], 1000⟩ "aa" "bb" (.str "q")).1 = .ok b := by
  refine ⟨verify_never_throws.1 B0 cNone "aa" "bb" (.str "q")
      (by decide) (by decide) rfl,
    verify_never_throws.2 B0 cNone ⟨[], 1000⟩ "aa" "bb" (.str "q")
      (by decide) (by decide) rfl ?_⟩
  intro e he
  simp [assocLookup] at he

/-! ## Claim C9 -/

/-- Counterexample to C9 as stated: on a cache hit the cache *state* is not
literally unchanged — the LRU `get` promotes the hit entry's recency, so an
older entry order is reshuffled (here `"b"` moves in front of `"a"`). No
binding changes, but the state differs. -/
theorem verifyMessage_hit_promotes_recency :
    (verifyMessage B0 cOk
        ⟨[("a", ⟨"p", .str "x"⟩), ("b", ⟨"q", .str "y"⟩)], 1000⟩
        "b" "q" (.str "y")).2
      ≠ ⟨[("a", ⟨"p", .str "x"⟩), ("b", ⟨"q", .str "y"⟩)], 1000⟩
    ∧ (lruGet ⟨[("a", ⟨"p", .str "x"⟩), ("b", ⟨"q", .str "y"⟩)], 1000⟩
        "b").1.isSome = true := by
  refine ⟨by decide, rfl⟩

/-- C9 (amended): on a cache hit `verifyMessage` performs no write to the
verification cache: for every key, the signature → (publicKey, data)
mapping after the call equals the mapping before it, whether the call
returns true, false or throws — only the hit entry's recency is promoted —
so the pair bound to a signature by its first successful verification is
never overwritten by a later `verifyMessage` call. -/
theorem verifyMessage_hit_preserves_mapping :
    ∀ (B : BufferApi) (c : CryptoApi) (cache : LRUCache) (sig pub : String)
      (data : Data),
      (lruGet cache sig).1.isSome = true →
      ∀ k, assocLookup (verifyMessage B c cache sig pub data).2.entries k
        = assocLookup cache.entries k := by
  intro B c cache sig pub data hs k
  cases hl : assocLookup cache.entries sig with
  | none =>
    rw [lruGet_fst, hl] at hs
    simp at hs
  | some e =>
    unfold verifyMessage
    rw [lruGet_hit hl]
    dsimp only
    by_cases hpk : e.publicKey = pub
    · rw [if_pos hpk]
      cases hc : compareCached B e.data data with
      | ok m =>
        simp only [hc]
        exact assocLookup_promote hl k
      | error er =>
        simp only [hc]
        exact assocLookup_promote hl k
    · rw [if_neg hpk]
      exact assocLookup_promote hl k

/-- Witness for C9 (amended): a concrete hit leaves the binding under the
hit signature unchanged. -/
theorem verifyMessage_hit_preserves_mapping_witness :
    assocLookup (verifyMessage B0 cOk ⟨[("b", ⟨"q", .str "y"⟩)], 1000⟩
        "b" "q" (.str "y")).2.entries "b"
      = assocLookup [("b", ⟨"q", .str "y"⟩)] "b" :=
  verifyMessage_hit_preserves_mapping B0 cOk ⟨[("b", ⟨"q", .str "y"⟩)], 1000⟩
    "b" "q" (.str "y") rfl "b"

/-! ## Claim C1 -/

/-- C1: the verification cache only ever holds positive results. In every
reachable cache state, an entry under a signature records a
(publicKey, data) pair for which `verifySignature` returned `ok true`;
and on a miss where `verifySignature` returns `false`, `verifyMessage`
stores nothing (the cache is unchanged). -/
theorem verifiedCache_only_positive :
    (∀ (B : BufferApi) (c : CryptoApi) (s : LRUCache),
      ReachableCache B c s →
      ∀ sig e, (sig, e) ∈ s.entries →
        verifySignature B c sig e.publicKey e.data = .ok true)
    ∧ (∀ (B : BufferApi) (c : CryptoApi) (s : LRUCache) (sig pub : String)
        (data : Data),
      (lruGet s sig).1 = none →
      verifySignature B c sig pub data = .ok false →
      (verifyMessage B c s sig pub data).2 = s) := by
  constructor
  · intro B c s hs
    induction hs with
    | init size => intro sig e h; simp at h
    | step sig1 pub1 data1 hr ih =>
      rename_i t
      intro sig e hmem
      cases hl : assocLookup t.entries sig1 with
      | some v =>
        have hpromote :
            (sig, e) ∈ (sig1, v) :: List.filter (fun p => p.1 ≠ sig1) t.entries →
            verifySignature B c sig e.publicKey e.data = .ok true := by
          intro hmem2
          rcases List.mem_cons.mp hmem2 with heq | hmm
          · have h1 : sig = sig1 := congrArg Prod.fst heq
            have h2 : e = v := congrArg Prod.snd heq
            rw [h1, h2]
            exact ih sig1 v (assocLookup_mem hl)
          · exact ih _ _ (List.mem_of_mem_filter hmm)
        unfold verifyMessage at hmem
        rw [lruGet_hit hl] at hmem
        dsimp only at hmem
        by_cases hpk : v.publicKey = pub1
        · rw [if_pos hpk] at hmem
          cases hc : compareCached B v.data data1 with
          | ok m => rw [hc] at hmem; exact hpromote hmem
          | error er => rw [hc] at hmem; exact hpromote hmem
        · rw [if_neg hpk] at hmem
          exact hpromote hmem
      | none =>
        unfold verifyMessage at hmem
        rw [lruGet_miss hl] at hmem
        dsimp only at hmem
        cases hv : verifySignature B c sig1 pub1 data1 with
        | error er =>
          rw [hv] at hmem
          exact ih _ _ hmem
        | ok b =>
          rw [hv] at hmem
          cases b with
          | false => simp at hmem; exact ih _ _ hmem
          | true =>
            simp only [if_pos rfl, lruPut] at hmem
            rcases List.mem_cons.mp (List.take_subset _ _ hmem) with heq | h2
            · have h1 : sig = sig1 := congrArg Prod.fst heq
              have h2 : e = ⟨pub1, data1⟩ := congrArg Prod.snd heq
              rw [h1, h2]
              exact hv
            · exact ih _ _ (List.mem_of_mem_filter h2)
  · intro B c s sig pub data hl hv
    rw [lruGet_fst] at hl
    unfold verifyMessage
    rw [lruGet_miss hl]
    dsimp only
    rw [hv]
    rfl

/-- Witness for C1: a cache state reached by one successful verification
has its entry positively verified, and a failing verification leaves the
cache untouched. -/
theorem verifiedCache_only_positive_witness :
    verifySignature B0 cOk "00" "02e7" (.buf [0]) = .ok true
    ∧ (verifyMessage B0 cOk ⟨[], 5⟩ "zz" "02e7" (.buf [0])).2 = ⟨[], 5⟩ := by
  constructor
  · exact verifiedCache_only_positive.1 B0 cOk
      (verifyMessage B0 cOk ⟨[], 1000⟩ "00" "02e7" (.buf [0])).2
      (ReachableCache.step "00" "02e7" (.buf [0]) (ReachableCache.init 1000))
      "00" ⟨"02e7", .buf [0]⟩ (by decide)
  · exact verifiedCache_only_positive.2 B0 cOk ⟨[], 5⟩ "zz" "02e7"
      (.buf [0]) rfl rfl

/-! ## Claim C2 -/

/-- C2: on a verification-cache hit, `verifyMessage` does not re-run
cryptographic verification (the outcome is independent of the crypto API),
and when it returns a boolean it returns true iff the cached publicKey
equals the supplied one exactly and the cached data equals the supplied
data in the spec's sense (`dataMatchSpec`: byte-for-byte if the supplied
data is binary, string form otherwise). Consequently, after a signature is
cached from `(sig, pubA, dataA)`, calling with `(sig, pubB, dataA)` for
`pubB ≠ pubA` returns false — under any crypto API. -/
theorem verifyMessage_cache_hit_semantics :
    (∀ (B : BufferApi) (c : CryptoApi) (cache : LRUCache) (sig pub : String)
        (data : Data) (cpub : String) (cdata : Data) (b : Bool),
      assocLookup cache.entries sig = some ⟨cpub, cdata⟩ →
      ((verifyMessage B c cache sig pub data).1 = .ok b →
        (b = true ↔ (cpub = pub ∧ dataMatchSpec B cdata data)))
      ∧ ∀ c2, verifyMessage B c cache sig pub data
          = verifyMessage B c2 cache sig pub data)
    ∧ (∀ (B : BufferApi) (c c2 : CryptoApi) (cache : LRUCache)
        (sig pubA pubB : String) (dataA : Data),
      cache.size ≠ 0 →
      assocLookup cache.entries sig = none →
      (verifyMessage B c cache sig pubA dataA).1 = .ok true →
      pubB ≠ pubA →
      (verifyMessage B c2 (verifyMessage B c cache sig pubA dataA).2
          sig pubB dataA).1 = .ok false) := by
  constructor
  · intro B c cache sig pub data cpub cdata b hl
    constructor
    · intro hb
      unfold verifyMessage at hb
      rw [lruGet_hit hl] at hb
      dsimp only at hb
      by_cases hpk : cpub = pub
      · rw [if_pos hpk] at hb
        cases data with
        | buf bs =>
          cases cdata with
          | buf cs =>
            simp [compareCached] at hb
            rw [← hb]
            simp [dataMatchSpec, hpk]
          | str s2 =>
            simp [compareCached] at hb
        | str t =>
          simp [compareCached] at hb
          rw [← hb]
          simp [dataMatchSpec, hpk]
      · rw [if_neg hpk] at hb
        simp at hb
        subst hb
        simp [hpk]
    · intro c2
      unfold verifyMessage
      rw [lruGet_hit hl]
  · intro B c c2 cache sig pubA pubB dataA hcap hl h1 hne
    have hmiss := lruGet_miss hl
    unfold verifyMessage at h1
    rw [hmiss] at h1
    dsimp only at h1
    cases hv : verifySignature B c sig pubA dataA with
    | error er => rw [hv] at h1; simp at h1
    | ok b =>
      rw [hv] at h1
      cases b with
      | false => simp at h1
      | true =>
        have hstate : (verifyMessage B c cache sig pubA dataA).2
            = lruPut cache sig ⟨pubA, dataA⟩ := by
          unfold verifyMessage
          rw [hmiss]
          dsimp only
          rw [hv]
          rfl
        rw [hstate]
        have hlook : assocLookup (lruPut cache sig ⟨pubA, dataA⟩).entries sig
            = some ⟨pubA, dataA⟩ := by
          unfold lruPut
          cases hsz : cache.size with
          | zero => exact absurd hsz hcap
          | succ n => simp [assocLookup]
        unfold verifyMessage
        rw [lruGet_hit hlook]
        dsimp only
        rw [if_neg (fun h => hne h.symm)]

/-- Witness for C2 at concrete inputs: a hit on an identical call yields
the match iff, and a hit with a different public key yields false under a
crypto API that would reject everything. -/
theorem verifyMessage_cache_hit_semantics_witness :
    (true = true ↔ ("p1" = "p1" ∧ dataMatchSpec B0 (.str "d") (.str "d")))
    ∧ (verifyMessage B0 cNone
        (verifyMessage B0 cOk ⟨[], 1000⟩ "70" "p2" (.buf [112])).2
        "70" "px" (.buf [112])).1 = .ok false := by
  constructor
  · exact (verifyMessage_cache_hit_semantics.1 B0 cOk
      ⟨[("s1", ⟨"p1", .str "d"⟩)], 1000⟩ "s1" "p1" (.str "d") "p1" (.str "d")
      true rfl).1 rfl
  · exact verifyMessage_cache_hit_semantics.2 B0 cOk cNone ⟨[], 1000⟩ "70"
      "p2" "px" (.buf [112]) (by decide) rfl rfl (by decide)

/-! ## Claim C4 -/

/-- C4: sign/verify round-trip. For truthy data and a key pair as produced
by the crypto library (non-empty marshalled public key and signature bytes,
whose `verify` accepts its own `sign` output — the library contract),
`verifySignature (signMessage key data) (getPublicKey key) data` returns
`ok true`: the hex-encoded signature verifies against the hex-encoded
public key of the same pair and the same data. -/
theorem sign_verify_roundtrip :
    ∀ (B : BufferApi) (c : CryptoApi) (key : KeyHandle) (data : Data)
      (pubObj : PubKeyObj) (sig pub : String),
      data.truthy = true →
      bytesValid key.pubBytes →
      bytesValid (key.sign (dataToBytes B data)) →
      key.pubBytes ≠ [] →
      key.sign (dataToBytes B data) ≠ [] →
      c.unmarshalPubKey key.pubBytes = some pubObj →
      pubObj.verify (dataToBytes B data) (key.sign (dataToBytes B data))
        = some true →
      signMessage B (some key) data = .ok sig →
      getPublic (some key) none = .ok (.hexStr pub) →
      verifySignature B c sig pub data = .ok true := by
  intro B c key data pubObj sig pub htr hvp hvs hpne hsne hum hver hsig hpub
  have hsig' : sig = hexEncode (key.sign (dataToBytes B data)) := by
    simp [signMessage, htr] at hsig
    exact hsig.symm
  have hpub' : pub = hexEncode key.pubBytes := by
    simp [getPublic] at hpub
    exact hpub.symm
  subst hsig'
  subst hpub'
  unfold verifySignature
  rw [if_neg (hexEncode_ne_empty hsne), if_neg (hexEncode_ne_empty hpne),
    if_neg (by simp [htr])]
  simp only [hexDecode_hexEncode _ hvp, hexDecode_hexEncode _ hvs, hum, hver]

/-- Witness for C4 at a concrete key, crypto API and binary data. -/
theorem sign_verify_roundtrip_witness :
    verifySignature B0 cOk "05" "02e7" (.buf [5]) = .ok true :=
  sign_verify_roundtrip B0 cOk trivialKey (.buf [5]) pubObjEq "05" "02e7"
    rfl (by decide) (by decide) (by decide) (by decide) rfl rfl rfl rfl

/-! ## Composed-storage lemmas (for claim C5) -/

theorem composedPut_stable (s : ComposedState) (k : String) (v : Bytes) :
    (∀ w, assocLookup (composedPut s k v).2.cache k = some w → w = v)
    ∧ assocLookup (composedPut s k v).2.level k = some v := by
  unfold composedPut
  dsimp only
  constructor
  · intro w h
    unfold lruInsert at h
    cases hsz : s.cacheSize with
    | zero => rw [hsz] at h; simp [assocLookup] at h
    | succ n =>
      rw [hsz] at h
      simp [assocLookup] at h
      exact h.symm
  · simp [assocLookup]

theorem composedPut_level_other (s : ComposedState) (k : String) (v : Bytes)
    (k' : String) (h : k' ≠ k) :
    assocLookup (composedPut s k v).2.level k' = assocLookup s.level k' := by
  unfold composedPut
  dsimp only
  have hne : ¬ (k = k') := fun hh => h hh.symm
  simp only [assocLookup, if_neg hne]
  exact assocLookup_filter_ne _ _ _ h

theorem composedGet_stable {s : ComposedState} {k : String} {v : Bytes}
    (hcache : ∀ w, assocLookup s.cache k = some w → w = v)
    (hlevel : assocLookup s.level k = some v) :
    (composedGet s k).1 = .ok (some v)
    ∧ (∀ w, assocLookup (composedGet s k).2.cache k = some w → w = v)
    ∧ assocLookup (composedGet s k).2.level k = some v := by
  unfold composedGet
  cases hc : assocLookup s.cache k with
  | some w =>
    have hw := hcache w hc
    subst hw
    refine ⟨rfl, ?_, hlevel⟩
    intro w2 h2
    simp [assocLookup] at h2
    exact h2.symm
  | none =>
    rw [hlevel]
    refine ⟨rfl, ?_, hlevel⟩
    intro w2 h2
    dsimp only at h2
    unfold lruInsert at h2
    cases hsz : s.cacheSize with
    | zero => rw [hsz] at h2; simp [assocLookup] at h2
    | succ n =>
      rw [hsz] at h2
      simp [assocLookup] at h2
      exact h2.symm

/-! ## Claim C5 -/

/-- C5 (storage layer modelled from the spec): for a non-empty id,
`createKey` persists exactly the private-key bytes under
`"private_" + id` — the persistent tier changes at no other key and the
public key is not persisted — and returns the full handle; a subsequent
`getKey` (given the crypto library's marshal/unmarshal round-trip on this
key) returns a key pair structurally equal to the created one, and calling
`getKey` twice returns equal results. -/
theorem createKey_persists_private_getKey_roundtrips :
    ∀ (s : ComposedState) (id : String) (keys : KeyHandle) (c : CryptoApi)
      (r : Except JsError KeyHandle) (s1 : ComposedState),
      id ≠ "" →
      createKey composedStorage s id keys = (r, s1) →
      r = .ok keys
      ∧ assocLookup s1.level ("private_" ++ id) = some keys.marshal
      ∧ (∀ k, k ≠ "private_" ++ id →
          assocLookup s1.level k = assocLookup s.level k)
      ∧ (c.unmarshalPrivKey keys.marshal = keys →
          (getKey composedStorage c s1 id).1 = .ok (some keys)
          ∧ (getKey composedStorage c
              (getKey composedStorage c s1 id).2 id).1
            = (getKey composedStorage c s1 id).1) := by
  intro s id keys c r s1 hid hck
  have hck2 : createKey composedStorage s id keys
      = (.ok keys, (composedPut s ("private_" ++ id) keys.marshal).2) := by
    unfold createKey addKey composedStorage composedPut
    rw [if_neg hid]
  rw [hck2] at hck
  have hr : r = .ok keys := (congrArg Prod.fst hck).symm
  have hs1 : s1 = (composedPut s ("private_" ++ id) keys.marshal).2 :=
    (congrArg Prod.snd hck).symm
  subst hs1
  obtain ⟨hput_c, hput_l⟩ :=
    composedPut_stable s ("private_" ++ id) keys.marshal
  refine ⟨hr, hput_l, ?_, ?_⟩
  · intro k hk
    exact composedPut_level_other s ("private_" ++ id) keys.marshal k hk
  · intro hun
    obtain ⟨hg1r, hg1c, hg1l⟩ := composedGet_stable hput_c hput_l
    obtain ⟨hg2r, hg2c, hg2l⟩ := composedGet_stable hg1c hg1l
    have hkey1 : (getKey composedStorage c
        (composedPut s ("private_" ++ id) keys.marshal).2 id)
        = (.ok (some keys),
           (composedGet (composedPut s ("private_" ++ id) keys.marshal).2
             ("private_" ++ id)).2) := by
      unfold getKey
      rw [if_neg hid]
      rcases hp : composedGet (composedPut s ("private_" ++ id) keys.marshal).2
          ("private_" ++ id) with ⟨r2, s2⟩
      rw [hp] at hg1r
      dsimp only at hg1r
      subst hg1r
      have hsg : composedStorage.get = composedGet := rfl
      rw [hsg, hp]
      dsimp only
      rw [hun]
    have hkey2 : (getKey composedStorage c
        (composedGet (composedPut s ("private_" ++ id) keys.marshal).2
          ("private_" ++ id)).2 id).1
        = .ok (some keys) := by
      unfold getKey
      rw [if_neg hid]
      rcases hp : composedGet
          (composedGet (composedPut s ("private_" ++ id) keys.marshal).2
            ("private_" ++ id)).2 ("private_" ++ id) with ⟨r2, s2⟩
      rw [hp] at hg2r
      dsimp only at hg2r
      subst hg2r
      have hsg : composedStorage.get = composedGet := rfl
      rw [hsg, hp]
      dsimp only
      rw [hun]
    rw [hkey1]
    exact ⟨rfl, hkey2⟩

/-- Witness for C5: creating `"key1"` in an empty composed store and
reading it back returns the created handle. -/
theorem createKey_persists_private_getKey_roundtrips_witness :
    (getKey composedStorage cOk
      (createKey composedStorage ⟨[], 1000, []⟩ "key1" trivialKey).2
      "key1").1 = .ok (some trivialKey) := by
  have h := createKey_persists_private_getKey_roundtrips ⟨[], 1000, []⟩
    "key1" trivialKey cOk
    (createKey composedStorage ⟨[], 1000, []⟩ "key1" trivialKey).1
    (createKey composedStorage ⟨[], 1000, []⟩ "key1" trivialKey).2
    (by decide) rfl
  exact (h.2.2.2 rfl).1

end KeyStoreModel
